import Mathlib

/-!
Shallow embedding of the 0x exchange settlement core: the fill/cancel state
machine and meta-transaction gate of `MixinExchangeCore.sol`, the calldata
decoder `LibExchangeDecoder.sol`, and the client-side signature check
`ZeroEx.isValidSignature` from `0x.js.ts`.  `uint256` values are `Nat` with
explicit `% 2^256` where the EVM wraps; Solidity `require`/`assert` failures
(which revert the whole call) are `Except.error`/`Option.none`.
-/
namespace ZeroExModel

/-- Modulus of the EVM `uint256` word type. -/
def U256 : Nat := 2 ^ 256

/-- Modelled from the spec: `SafeMath.safeAdd` (the SafeMath library file is
not among the sources; the spec fixes checked, non-wrapping arithmetic).
Computes `c = a + b` wrapping mod `2^256` and asserts `c >= a`; aborts on
overflow. -/
def safeAdd (a b : Nat) : Option Nat :=
  let c := (a + b) % U256
  if c ≥ a then some c else none

/-- Modelled from the spec: `SafeMath.safeSub`; asserts `b <= a` and returns
`a - b`. -/
def safeSub (a b : Nat) : Option Nat :=
  if b ≤ a then some (a - b) else none

/-- Modelled from the spec: `SafeMath.safeMul`; computes `c = a * b` wrapping
mod `2^256` and asserts `a == 0 || c / a == b`; aborts on overflow. -/
def safeMul (a b : Nat) : Option Nat :=
  let c := a * b % U256
  if a = 0 then some 0
  else if c / a = b then some c else none

/-- Modelled from the spec: `SafeMath.safeDiv`; integer division, aborting on
a zero divisor (Solidity division by zero reverts). -/
def safeDiv (a b : Nat) : Option Nat :=
  if b = 0 then none else some (a / b)

/-- Modelled from the spec: `SafeMath.min256`. -/
def min256 (a b : Nat) : Nat := min a b

/-- EVM `mulmod(a, b, m)`: `a * b % m` computed at full width; the EVM
defines the result to be `0` when the modulus is `0`. -/
def mulmod (a b m : Nat) : Nat := if m = 0 then 0 else a * b % m

/-- Modelled from the spec: the `LibErrors` enum is not among the sources;
the spec names the soft-failure signals `OrderExpired`, `OrderUnfillable`
(`ORDER_FULLY_FILLED_OR_CANCELLED`) and `RoundingErrorTooLarge`. -/
inductive Errors where
  | orderExpired
  | orderFullyFilledOrCancelled
  | roundingErrorTooLarge
deriving DecidableEq, Repr

/-- Events emitted by `MixinExchangeCore` (`Fill`, `Cancel`, `CancelUpTo`)
and the soft-failure signal `ExchangeError` from `LibErrors`.  Addresses,
amounts and hashes are all `Nat`. -/
inductive Event where
  | fill (makerAddress takerAddress feeRecipientAddress makerTokenAddress
      takerTokenAddress makerTokenFilledAmount takerTokenFilledAmount
      makerFeeAmountPaid takerFeeAmountPaid orderHash : Nat)
  | cancel (makerAddress feeRecipientAddress makerTokenAddress
      takerTokenAddress makerTokenCancelledAmount takerTokenCancelledAmount
      orderHash : Nat)
  | cancelUpTo (maker makerEpoch : Nat)
  | exchangeError (errorId : Errors) (orderHash : Nat)
deriving DecidableEq, Repr

/-- The `LibOrder.Order` struct, field names and order as used by
`MixinExchangeCore.sol` and laid out by `LibExchangeDecoder.sol`
(`senderAddress, makerAddress, takerAddress, makerTokenAddress,
takerTokenAddress, feeRecipientAddress, makerTokenAmount, takerTokenAmount,
makerFeeAmount, takerFeeAmount, expirationTimeSeconds, salt`). -/
structure Order where
  senderAddress : Nat
  makerAddress : Nat
  takerAddress : Nat
  makerTokenAddress : Nat
  takerTokenAddress : Nat
  feeRecipientAddress : Nat
  makerTokenAmount : Nat
  takerTokenAmount : Nat
  makerFeeAmount : Nat
  takerFeeAmount : Nat
  expirationTimeSeconds : Nat
  salt : Nat
deriving DecidableEq, Repr

/-- Modelled from the spec: `LibOrder.getOrderHash` is not among the sources.
The spec requires a deterministic digest of the order's field tuple with
collisions treated as impossible; it is modelled as an injective pairing of
the fields. -/
def getOrderHash (o : Order) : Nat :=
  Nat.pair o.senderAddress (Nat.pair o.makerAddress (Nat.pair o.takerAddress
    (Nat.pair o.makerTokenAddress (Nat.pair o.takerTokenAddress
    (Nat.pair o.feeRecipientAddress (Nat.pair o.makerTokenAmount
    (Nat.pair o.takerTokenAmount (Nat.pair o.makerFeeAmount
    (Nat.pair o.takerFeeAmount (Nat.pair o.expirationTimeSeconds o.salt))))))))))

/-- Contract storage of `MixinExchangeCore`: the executed-transaction set and
the filled / cancelled / makerEpoch mappings (mappings default to zero). -/
structure ExchangeState where
  transactions : Nat → Bool
  filled : Nat → Nat
  cancelled : Nat → Nat
  makerEpoch : Nat → Nat

/-- The empty ledger: all mappings at their default values. -/
def initState : ExchangeState :=
  { transactions := fun _ => false
    filled := fun _ => 0
    cancelled := fun _ => 0
    makerEpoch := fun _ => 0 }

/-- `isRoundingError` (MixinExchangeCore lines 172-187): checks whether the
truncation error of `target * numerator / denominator` exceeds 0.1%.  `none`
models a reverted call (checked-arithmetic abort). -/
def isRoundingError (numerator denominator target : Nat) : Option Bool :=
  let remainder := mulmod target numerator denominator
  if remainder = 0 then
    some false
  else
    match safeMul remainder 1000000 with
    | none => none
    | some a =>
      match safeMul numerator target with
      | none => none
      | some b =>
        match safeDiv a b with
        | none => none
        | some errPercentageTimes1000000 => some (errPercentageTimes1000000 > 1000)

/-- `getUnavailableTakerTokenAmount` (lines 192-198): `filled + cancelled`
for an order hash, with checked addition. -/
def getUnavailableTakerTokenAmount (s : ExchangeState) (orderHash : Nat) : Option Nat :=
  safeAdd (s.filled orderHash) (s.cancelled orderHash)

/-- Tail of `fillOrderInternal` (lines 230-279): expiration check,
availability, rounding guard, bulk-cancel epoch check, ledger update,
settlement and the `Fill` event.  `settle` is the `MSettlement.settleOrder`
collaborator (not among the sources): it returns the maker-side amount and
the two fees, or `none` for an atomic settlement failure that reverts the
whole call. -/
def fillOrderAvailability (settle : Order → Nat → Nat → Option (Nat × Nat × Nat))
    (s : ExchangeState) (takerAddress : Nat) (order : Order)
    (takerTokenFillAmount orderHash time : Nat) :
    Except Unit (ExchangeState × List Event × Nat) :=
  if time ≥ order.expirationTimeSeconds then
    Except.ok (s, [Event.exchangeError Errors.orderExpired orderHash], 0)
  else
    match getUnavailableTakerTokenAmount s orderHash with
    | none => Except.error ()
    | some unavailable =>
      match safeSub order.takerTokenAmount unavailable with
      | none => Except.error ()
      | some remainingTakerTokenAmount =>
        let takerTokenFilledAmount := min256 takerTokenFillAmount remainingTakerTokenAmount
        if takerTokenFilledAmount = 0 then
          Except.ok (s, [Event.exchangeError Errors.orderFullyFilledOrCancelled orderHash], 0)
        else
          match isRoundingError takerTokenFilledAmount order.takerTokenAmount
              order.makerTokenAmount with
          | none => Except.error ()
          | some true =>
            Except.ok (s, [Event.exchangeError Errors.roundingErrorTooLarge orderHash], 0)
          | some false =>
            if order.salt < s.makerEpoch order.makerAddress then
              Except.ok (s, [Event.exchangeError Errors.orderFullyFilledOrCancelled orderHash], 0)
            else
              match safeAdd (s.filled orderHash) takerTokenFilledAmount with
              | none => Except.error ()
              | some newFilled =>
                let s' := { s with
                  filled := fun h => if h = orderHash then newFilled else s.filled h }
                match settle order takerAddress takerTokenFilledAmount with
                | none => Except.error ()
                | some (makerTokenFilledAmount, makerFeeAmountPaid, takerFeeAmountPaid) =>
                  Except.ok (s',
                    [Event.fill order.makerAddress takerAddress
                      order.feeRecipientAddress order.makerTokenAddress
                      order.takerTokenAddress makerTokenFilledAmount
                      takerTokenFilledAmount makerFeeAmountPaid takerFeeAmountPaid
                      orderHash],
                    takerTokenFilledAmount)

/-- `fillOrderInternal` (lines 200-280).  `sigValid` is the
`MSignatureValidator.isValidSignature` oracle (not among the sources),
taking the order hash, the claimed signer and the signature bytes.  The
leading guards mirror the `require` chain: first-reference validation of the
amounts and the maker signature (only when `filled` and `cancelled` are both
zero), then sender / taker authorization and the nonzero-fill-amount check. -/
def fillOrderInternal (sigValid : Nat → Nat → List Nat → Bool)
    (settle : Order → Nat → Nat → Option (Nat × Nat × Nat))
    (s : ExchangeState) (msgSender takerAddress : Nat) (order : Order)
    (takerTokenFillAmount : Nat) (signature : List Nat) (time : Nat) :
    Except Unit (ExchangeState × List Event × Nat) :=
  let orderHash := getOrderHash order
  if (s.filled orderHash = 0 ∧ s.cancelled orderHash = 0) ∧
      ¬(order.makerTokenAmount > 0 ∧ order.takerTokenAmount > 0 ∧
        sigValid orderHash order.makerAddress signature = true) then
    Except.error ()
  else if order.senderAddress ≠ 0 ∧ order.senderAddress ≠ msgSender then
    Except.error ()
  else if order.takerAddress ≠ 0 ∧ order.takerAddress ≠ takerAddress then
    Except.error ()
  else if ¬takerTokenFillAmount > 0 then
    Except.error ()
  else
    fillOrderAvailability settle s takerAddress order takerTokenFillAmount orderHash time

/-- Modelled from the spec: `LibPartialAmount.getPartialAmount` is not among
the sources; the spec's proportional amount is
`numerator * target / denominator` in checked arithmetic. -/
def getPartialAmount (numerator denominator target : Nat) : Option Nat :=
  match safeMul numerator target with
  | none => none
  | some a => safeDiv a denominator

/-- `cancelOrderInternal` (lines 282-332): validation `require`s, the
expiration soft-outcome, availability and the `cancelled` ledger update. -/
def cancelOrderInternal (s : ExchangeState) (msgSender makerAddress : Nat)
    (order : Order) (takerTokenCancelAmount time : Nat) :
    Except Unit (ExchangeState × List Event × Nat) :=
  let orderHash := getOrderHash order
  if ¬order.makerTokenAmount > 0 then Except.error ()
  else if ¬order.takerTokenAmount > 0 then Except.error ()
  else if ¬takerTokenCancelAmount > 0 then Except.error ()
  else if order.senderAddress ≠ 0 ∧ order.senderAddress ≠ msgSender then
    Except.error ()
  else if order.makerAddress ≠ makerAddress then Except.error ()
  else if time ≥ order.expirationTimeSeconds then
    Except.ok (s, [Event.exchangeError Errors.orderExpired orderHash], 0)
  else
    match getUnavailableTakerTokenAmount s orderHash with
    | none => Except.error ()
    | some unavailable =>
      match safeSub order.takerTokenAmount unavailable with
      | none => Except.error ()
      | some remainingTakerTokenAmount =>
        let takerTokenCancelledAmount := min256 takerTokenCancelAmount remainingTakerTokenAmount
        if takerTokenCancelledAmount = 0 then
          Except.ok (s, [Event.exchangeError Errors.orderFullyFilledOrCancelled orderHash], 0)
        else
          match safeAdd (s.cancelled orderHash) takerTokenCancelledAmount with
          | none => Except.error ()
          | some newCancelled =>
            let s' := { s with
              cancelled := fun h => if h = orderHash then newCancelled else s.cancelled h }
            match getPartialAmount takerTokenCancelledAmount order.takerTokenAmount
                order.makerTokenAmount with
            | none => Except.error ()
            | some makerTokenCancelledAmount =>
              Except.ok (s',
                [Event.cancel order.makerAddress order.feeRecipientAddress
                  order.makerTokenAddress order.takerTokenAddress
                  makerTokenCancelledAmount takerTokenCancelledAmount orderHash],
                takerTokenCancelledAmount)

/-- `fillOrder` (lines 125-138): the public entry point; the taker is the
message sender. -/
def fillOrder (sigValid : Nat → Nat → List Nat → Bool)
    (settle : Order → Nat → Nat → Option (Nat × Nat × Nat))
    (s : ExchangeState) (msgSender : Nat) (order : Order)
    (takerTokenFillAmount : Nat) (signature : List Nat) (time : Nat) :
    Except Unit (ExchangeState × List Event × Nat) :=
  fillOrderInternal sigValid settle s msgSender msgSender order
    takerTokenFillAmount signature time

/-- `cancelOrder` (lines 144-155): the public entry point; the maker is the
message sender. -/
def cancelOrder (s : ExchangeState) (msgSender : Nat) (order : Order)
    (takerTokenCancelAmount time : Nat) :
    Except Unit (ExchangeState × List Event × Nat) :=
  cancelOrderInternal s msgSender msgSender order takerTokenCancelAmount time

/-- `cancelOrdersUpTo` (lines 158-165).  `salt + 1` is plain (unchecked)
Solidity 0.4 arithmetic and wraps mod `2^256`; the `require` demands a
strictly increasing epoch. -/
def cancelOrdersUpTo (s : ExchangeState) (msgSender salt : Nat) :
    Except Unit (ExchangeState × List Event) :=
  let newMakerEpoch := (salt + 1) % U256
  if newMakerEpoch > s.makerEpoch msgSender then
    Except.ok
      ({ s with makerEpoch := fun a => if a = msgSender then newMakerEpoch else s.makerEpoch a },
       [Event.cancelUpTo msgSender newMakerEpoch])
  else
    Except.error ()

/-- Byte `i` of a byte array; EVM memory beyond the allocated array reads as
zero. -/
def byteAt (b : List Nat) (i : Nat) : Nat := (b.drop i).headD 0

/-- The 32-byte big-endian word starting at content offset `off` of a byte
array, as read by `mload` (absent bytes read as zero). -/
def readWord (b : List Nat) (off : Nat) : Nat :=
  (List.range 32).foldl (fun acc j => acc * 256 + byteAt b (off + j)) 0

/-- `LibExchangeDecoder.get4` (lines 26-41): requires
`b.length >= index + 32`, then returns the first four bytes of the word at
content offset `index` (a `bytes4`, here the word's top four bytes as a
number). -/
def get4 (b : List Nat) (index : Nat) : Option Nat :=
  if b.length ≥ index + 32 then some (readWord b index / 2 ^ 224) else none

/-- `LibExchangeDecoder.getFunctionSelector` (lines 43-50). -/
def getFunctionSelector (data : List Nat) : Option Nat :=
  get4 data 0

/-- `LibExchangeDecoder.getFillOrderArgs` (lines 52-90): raw assembly struct
unpacking with no length validation whatsoever — it copies the words at the
fixed content offsets 4, 36, ..., 388 into the order and fill amount, reads
the signature length at content offset 452 and the signature bytes from
content offset 484 on.  Reads past the end of the payload yield zero; the
function can never revert, so the result is always `some`.  (The address
members hold the raw stored words, exactly as `mstore`d by the assembly.) -/
def getFillOrderArgs (data : List Nat) : Option (Order × Nat × List Nat) :=
  let w := fun (j : Nat) => readWord data (4 + j)
  let sigLen := w 448
  some
    ({ senderAddress := w 0
       makerAddress := w 32
       takerAddress := w 64
       makerTokenAddress := w 96
       takerTokenAddress := w 128
       feeRecipientAddress := w 160
       makerTokenAmount := w 192
       takerTokenAmount := w 224
       makerFeeAmount := w 256
       takerFeeAmount := w 288
       expirationTimeSeconds := w 320
       salt := w 352 },
     w 384,
     (List.range sigLen).map (fun i => byteAt data (484 + i)))

/-- `executeTransaction` (lines 93-118).  `txHash` is the
`keccak256(salt, data)` oracle, `sigValid` the signature-validator oracle
and `fillSel` the value of `this.fillOrder.selector` (the hash function and
validator mixin are not among the sources).  The replay `require`, the
signature `require` and the executed-mark precede the dispatch; a revert
anywhere (`Except.error`) undoes everything, including the mark. -/
def executeTransaction (txHash : Nat → List Nat → Nat)
    (sigValid : Nat → Nat → List Nat → Bool)
    (settle : Order → Nat → Nat → Option (Nat × Nat × Nat)) (fillSel : Nat)
    (s : ExchangeState) (msgSender salt signer : Nat) (data signature : List Nat)
    (time : Nat) : Except Unit (ExchangeState × List Event) :=
  let transactionHash := txHash salt data
  if s.transactions transactionHash then Except.error ()
  else if ¬sigValid transactionHash signer signature = true then Except.error ()
  else
    let s1 := { s with
      transactions := fun h => if h = transactionHash then true else s.transactions h }
    match getFunctionSelector data with
    | none => Except.error ()
    | some sel =>
      if sel = fillSel then
        match getFillOrderArgs data with
        | none => Except.error ()
        | some (order, takerTokenFillAmount, makerSignature) =>
          match fillOrderInternal sigValid settle s1 msgSender signer order
              takerTokenFillAmount makerSignature time with
          | Except.error e => Except.error e
          | Except.ok (s2, evs, _) => Except.ok (s2, evs)
      else Except.ok (s1, [])

/-- State left behind by one `executeTransaction` invocation: the new state
on success, the unchanged pre-state when the call reverts. -/
def executeTransactionStep (txHash : Nat → List Nat → Nat)
    (sigValid : Nat → Nat → List Nat → Bool)
    (settle : Order → Nat → Nat → Option (Nat × Nat × Nat)) (fillSel : Nat)
    (s : ExchangeState) (msgSender salt signer : Nat) (data signature : List Nat)
    (time : Nat) : ExchangeState :=
  match executeTransaction txHash sigValid settle fillSel s msgSender salt signer
      data signature time with
  | Except.ok (s', _) => s'
  | Except.error _ => s

/-- One external invocation of the exchange: a `fillOrder`, a `cancelOrder`
or a `cancelOrdersUpTo`, with its message sender, arguments and block
timestamp. -/
inductive Op where
  | fill (msgSender : Nat) (order : Order) (takerTokenFillAmount : Nat)
      (signature : List Nat) (time : Nat)
  | cancel (msgSender : Nat) (order : Order) (takerTokenCancelAmount : Nat)
      (time : Nat)
  | cancelUpTo (msgSender : Nat) (salt : Nat)

/-- Applies one invocation to the contract state; a reverted call (hard
failure) leaves the state unchanged. -/
def applyOp (sigValid : Nat → Nat → List Nat → Bool)
    (settle : Order → Nat → Nat → Option (Nat × Nat × Nat))
    (s : ExchangeState) : Op → ExchangeState
  | Op.fill msgSender order amt sig time =>
    match fillOrder sigValid settle s msgSender order amt sig time with
    | Except.ok (s', _, _) => s'
    | Except.error _ => s
  | Op.cancel msgSender order amt time =>
    match cancelOrder s msgSender order amt time with
    | Except.ok (s', _, _) => s'
    | Except.error _ => s
  | Op.cancelUpTo msgSender salt =>
    match cancelOrdersUpTo s msgSender salt with
    | Except.ok (s', _) => s'
    | Except.error _ => s

/-- Runs a sequence of invocations from a starting state. -/
def run (sigValid : Nat → Nat → List Nat → Bool)
    (settle : Order → Nat → Nat → Option (Nat × Nat × Nat))
    (s : ExchangeState) : List Op → ExchangeState
  | [] => s
  | op :: ops => run sigValid settle (applyOp sigValid settle s op) ops

/-- Per-order ledger invariant: the stored counters are `uint256` values and
their sum never exceeds the order's taker amount. -/
def ledgerInv (s : ExchangeState) (o : Order) : Prop :=
  s.filled (getOrderHash o) < U256 ∧ s.cancelled (getOrderHash o) < U256 ∧
  s.filled (getOrderHash o) + s.cancelled (getOrderHash o) ≤ o.takerTokenAmount

/-- Whether one invocation can account for a ledger entry at hash `h`: a
fill of an order hashing to `h` whose maker signature passed verification,
or a cancel of an order hashing to `h` authenticated by the maker being the
caller. -/
def opJustifies (sigValid : Nat → Nat → List Nat → Bool) (op : Op) (h : Nat) : Prop :=
  match op with
  | Op.fill _ o _ sig _ => getOrderHash o = h ∧ sigValid h o.makerAddress sig = true
  | Op.cancel msgSender o _ _ => getOrderHash o = h ∧ o.makerAddress = msgSender
  | Op.cancelUpTo _ _ => False

/-- A concrete order used for concrete executions: maker is address 1, no
sender / taker restriction, 200 maker tokens for 100 taker tokens, expiring
at time 1000. -/
def sampleOrder : Order :=
  { senderAddress := 0, makerAddress := 1, takerAddress := 0,
    makerTokenAddress := 0, takerTokenAddress := 0, feeRecipientAddress := 0,
    makerTokenAmount := 200, takerTokenAmount := 100, makerFeeAmount := 0,
    takerFeeAmount := 0, expirationTimeSeconds := 1000, salt := 0 }

/-- A signature-validator oracle that rejects every signature. -/
def sigAlwaysFalse : Nat → Nat → List Nat → Bool := fun _ _ _ => false

/-- A signature-validator oracle that accepts every signature. -/
def sigAlwaysTrue : Nat → Nat → List Nat → Bool := fun _ _ _ => true

/-- A settlement collaborator that always succeeds. -/
def settleZero : Order → Nat → Nat → Option (Nat × Nat × Nat) := fun _ _ _ => some (0, 0, 0)

/-- Boolean success test for a call result. -/
def isOkE {ε α : Type} : Except ε α → Bool
  | Except.ok _ => true
  | Except.error _ => false

/-- A concrete transaction-hash oracle. -/
def txHashConst : Nat → List Nat → Nat := fun _ _ => 42

/-- A concrete 32-byte relayed payload (selector 0, not the fill selector). -/
def payload32 : List Nat := List.replicate 32 0

/-- A ledger state in which the sample order is fully filled. -/
def filledUpState : ExchangeState :=
  { initState with filled := fun h => if h = getOrderHash sampleOrder then 100 else 0 }

/-- A 36-byte payload: long enough for the selector read, far shorter than
the 484-byte minimum for the declared fill-order structure. -/
def shortPayload : List Nat := List.replicate 36 0

end ZeroExModel

namespace ZeroEx

/-- The `ECSignature` triple of `0x.js.ts`: `v` a number, `r` and `s` hex
strings. -/
structure ECSignature where
  v : Nat
  r : String
  s : String
deriving DecidableEq, Repr

/-- Is the character a hexadecimal digit. -/
def isHexDigitChar (c : Char) : Bool :=
  (Char.ofNat 48 ≤ c ∧ c ≤ Char.ofNat 57) ∨
  (Char.ofNat 97 ≤ c ∧ c ≤ Char.ofNat 102) ∨
  (Char.ofNat 65 ≤ c ∧ c ≤ Char.ofNat 70)

/-- Modelled from the spec: `assert.isHexString` of `@0xproject/assert`
(whose sources are not included; per its README it provides type assertions
that fail on violation) — a `0x`-prefixed hexadecimal string. -/
def isHexString (str : String) : Bool :=
  match str.data with
  | '0' :: 'x' :: rest => rest.all isHexDigitChar
  | _ => false

/-- Modelled from the spec: `assert.isETHAddressHex` — a `0x`-prefixed
20-byte (40 hex digit) address string. -/
def isETHAddressHex (str : String) : Bool :=
  isHexString str && str.length = 42

/-- Modelled from the spec: `assert.doesConformToSchema` against
`ecSignatureSchema` (the schema file is not included); per spec section 6
the signature format is `v ∈ {27, 28}` with `r`, `s` 32-byte (64 hex digit)
values. -/
def conformsToECSignatureSchema (sig : ECSignature) : Bool :=
  (27 ≤ sig.v && sig.v ≤ 28) &&
  (isHexString sig.r && sig.r.length = 66) &&
  (isHexString sig.s && sig.s.length = 66)

/-- `ZeroEx.isValidSignature` from `0x.js.ts` (lines 40-58).  The three
argument assertions run before the `try` block and throw (`Except.error`) on
malformed input; only the elliptic-curve recovery is guarded by the
`try`/`catch` that returns `false`.  `hashPersonalMessage` and `ecrecover`
(composed with `pubToAddress`/`bufferToHex`) are external `ethereumjs-util`
functions, taken as oracles; `ecrecover` returning `none` models a thrown
recovery error, which the `catch` turns into `false`. -/
def isValidSignature (hashPersonalMessage : String → String)
    (ecrecover : String → Nat → String → String → Option String)
    (dataHex : String) (signature : ECSignature) (signerAddressHex : String) :
    Except Unit Bool :=
  if ¬isHexString dataHex then Except.error ()
  else if ¬conformsToECSignatureSchema signature then Except.error ()
  else if ¬isETHAddressHex signerAddressHex then Except.error ()
  else
    let msgHash := hashPersonalMessage dataHex
    match ecrecover msgHash signature.v signature.r signature.s with
    | none => Except.ok false
    | some retrievedAddress => Except.ok (retrievedAddress == signerAddressHex)

/-- Identity stand-in for the external `hashPersonalMessage`. -/
def hpmId : String → String := fun s => s

/-- A recovery oracle that always fails (throws inside the `try`). -/
def ecNone : String → Nat → String → String → Option String := fun _ _ _ _ => none

/-- A concrete well-formed signer address. -/
def sampleAddr : String := "0x1111111111111111111111111111111111111111"

/-- A recovery oracle that always recovers `sampleAddr`. -/
def ecConst : String → Nat → String → String → Option String :=
  fun _ _ _ _ => some sampleAddr

/-- A concrete schema-conformant signature triple. -/
def sampleSig : ECSignature :=
  { v := 27,
    r := "0x0000000000000000000000000000000000000000000000000000000000000000",
    s := "0x0000000000000000000000000000000000000000000000000000000000000000" }

end ZeroEx

namespace ZeroExModel

theorem U256_pos : 0 < U256 := by
  unfold U256
  exact pow_pos (by norm_num) 256

theorem safeAdd_some {a b c : Nat} (h : safeAdd a b = some c) :
    c ≤ a + b ∧ c < U256 := by
  simp only [safeAdd] at h
  split at h
  · cases h
    exact ⟨Nat.mod_le _ _, Nat.mod_lt _ U256_pos⟩
  · exact Option.noConfusion h

theorem safeAdd_eq_of_lt {a b : Nat} (ha : a < U256) (hb : b < U256) :
    safeAdd a b = if a + b < U256 then some (a + b) else none := by
  simp only [safeAdd]
  rcases Nat.lt_or_ge (a + b) U256 with hlt | hge
  · rw [Nat.mod_eq_of_lt hlt]
    simp [hlt, Nat.le_add_right]
  · have h2 : (a + b) % U256 = a + b - U256 := by
      rw [Nat.mod_eq_sub_mod hge, Nat.mod_eq_of_lt (by omega)]
    simp only [h2, ge_iff_le]
    rw [if_neg (by omega), if_neg (by omega)]

theorem safeAdd_of_sum_lt {a b : Nat} (h : a + b < U256) :
    safeAdd a b = some (a + b) := by
  simp only [safeAdd]
  rw [Nat.mod_eq_of_lt h]
  simp [Nat.le_add_right]

theorem safeAdd_some_of_lt {a b c : Nat} (ha : a < U256) (hb : b < U256)
    (h : safeAdd a b = some c) : c = a + b := by
  rw [safeAdd_eq_of_lt ha hb] at h
  split at h
  · cases h; rfl
  · exact Option.noConfusion h

theorem safeSub_eq_some {a b c : Nat} : safeSub a b = some c ↔ b ≤ a ∧ c = a - b := by
  unfold safeSub
  split
  · simp only [Option.some.injEq]
    constructor
    · intro h; exact ⟨by assumption, h.symm⟩
    · intro h; exact h.2.symm
  · constructor
    · intro hc
      exact Option.noConfusion hc
    · intro hc
      exact absurd hc.1 (by assumption)

theorem getOrderHash_injective : Function.Injective getOrderHash := by
  intro o1 o2 h
  unfold getOrderHash at h
  simp only [Nat.pair_eq_pair] at h
  cases o1
  cases o2
  simp_all

theorem fillOrderAvailability_ok {settle : Order → Nat → Nat → Option (Nat × Nat × Nat)}
    {s : ExchangeState} {takerAddress : Nat} {order : Order}
    {amt oh time : Nat} {s' : ExchangeState} {evs : List Event} {r : Nat}
    (h : fillOrderAvailability settle s takerAddress order amt oh time =
      Except.ok (s', evs, r)) :
    (s' = s ∧ r = 0) ∨
    (∃ unav rem nf, getUnavailableTakerTokenAmount s oh = some unav ∧
      safeSub order.takerTokenAmount unav = some rem ∧
      r = min256 amt rem ∧ r ≠ 0 ∧
      safeAdd (s.filled oh) r = some nf ∧
      s' = { s with filled := fun h' => if h' = oh then nf else s.filled h' }) := by
  unfold fillOrderAvailability at h
  simp only [] at h
  split at h
  · simp only [Except.ok.injEq, Prod.mk.injEq] at h
    exact Or.inl ⟨h.1.symm, h.2.2.symm⟩
  · split at h
    · exact Except.noConfusion h
    · rename_i unav hunav
      split at h
      · exact Except.noConfusion h
      · rename_i rem hrem
        split at h
        · simp only [Except.ok.injEq, Prod.mk.injEq] at h
          exact Or.inl ⟨h.1.symm, h.2.2.symm⟩
        · rename_i hne
          split at h
          · exact Except.noConfusion h
          · simp only [Except.ok.injEq, Prod.mk.injEq] at h
            exact Or.inl ⟨h.1.symm, h.2.2.symm⟩
          · rename_i hround
            split at h
            · simp only [Except.ok.injEq, Prod.mk.injEq] at h
              exact Or.inl ⟨h.1.symm, h.2.2.symm⟩
            · split at h
              · exact Except.noConfusion h
              · rename_i nf hnf
                split at h
                · exact Except.noConfusion h
                · rename_i trip hsettle
                  simp only [Except.ok.injEq, Prod.mk.injEq] at h
                  obtain ⟨hs, hevs, hr⟩ := h
                  subst hs hevs hr
                  exact Or.inr ⟨unav, rem, nf, hunav, hrem, rfl, hne, hnf, rfl⟩

theorem fillOrderInternal_ok {sigValid : Nat → Nat → List Nat → Bool}
    {settle : Order → Nat → Nat → Option (Nat × Nat × Nat)}
    {s : ExchangeState} {msgSender takerAddress : Nat} {order : Order}
    {amt : Nat} {signature : List Nat} {time : Nat}
    {s' : ExchangeState} {evs : List Event} {r : Nat}
    (h : fillOrderInternal sigValid settle s msgSender takerAddress order amt
      signature time = Except.ok (s', evs, r)) :
    ((s.filled (getOrderHash order) = 0 ∧ s.cancelled (getOrderHash order) = 0) →
      sigValid (getOrderHash order) order.makerAddress signature = true) ∧
    ((s' = s ∧ r = 0) ∨
    (∃ unav rem nf, getUnavailableTakerTokenAmount s (getOrderHash order) = some unav ∧
      safeSub order.takerTokenAmount unav = some rem ∧
      r = min256 amt rem ∧ r ≠ 0 ∧
      safeAdd (s.filled (getOrderHash order)) r = some nf ∧
      s' = { s with
        filled := fun h' => if h' = getOrderHash order then nf else s.filled h' })) := by
  unfold fillOrderInternal at h
  simp only [] at h
  split at h
  · exact Except.noConfusion h
  · rename_i hfirst
    split at h
    · exact Except.noConfusion h
    · split at h
      · exact Except.noConfusion h
      · split at h
        · exact Except.noConfusion h
        · constructor
          · intro hzero
            by_contra hsig
            exact hfirst ⟨hzero, fun htriple => hsig htriple.2.2⟩
          · exact fillOrderAvailability_ok h

theorem cancelOrderInternal_ok {s : ExchangeState} {msgSender makerAddress : Nat}
    {order : Order} {amt time : Nat}
    {s' : ExchangeState} {evs : List Event} {r : Nat}
    (h : cancelOrderInternal s msgSender makerAddress order amt time =
      Except.ok (s', evs, r)) :
    order.makerAddress = makerAddress ∧
    ((s' = s ∧ r = 0) ∨
    (∃ unav rem nc, getUnavailableTakerTokenAmount s (getOrderHash order) = some unav ∧
      safeSub order.takerTokenAmount unav = some rem ∧
      r = min256 amt rem ∧ r ≠ 0 ∧
      safeAdd (s.cancelled (getOrderHash order)) r = some nc ∧
      s' = { s with
        cancelled := fun h' => if h' = getOrderHash order then nc else s.cancelled h' })) := by
  unfold cancelOrderInternal at h
  simp only [] at h
  split at h
  · exact Except.noConfusion h
  · split at h
    · exact Except.noConfusion h
    · split at h
      · exact Except.noConfusion h
      · split at h
        · exact Except.noConfusion h
        · split at h
          · exact Except.noConfusion h
          · rename_i hmaker
            refine ⟨by omega, ?_⟩
            split at h
            · simp only [Except.ok.injEq, Prod.mk.injEq] at h
              exact Or.inl ⟨h.1.symm, h.2.2.symm⟩
            · split at h
              · exact Except.noConfusion h
              · rename_i unav hunav
                split at h
                · exact Except.noConfusion h
                · rename_i rem hrem
                  split at h
                  · simp only [Except.ok.injEq, Prod.mk.injEq] at h
                    exact Or.inl ⟨h.1.symm, h.2.2.symm⟩
                  · rename_i hne
                    split at h
                    · exact Except.noConfusion h
                    · rename_i nc hnc
                      split at h
                      · exact Except.noConfusion h
                      · simp only [Except.ok.injEq, Prod.mk.injEq] at h
                        obtain ⟨hs, hevs, hr⟩ := h
                        subst hs hevs hr
                        exact Or.inr ⟨unav, rem, nc, hunav, hrem, rfl, hne, hnc, rfl⟩

theorem cancelOrdersUpTo_ok {s : ExchangeState} {msgSender salt : Nat}
    {s' : ExchangeState} {evs : List Event}
    (h : cancelOrdersUpTo s msgSender salt = Except.ok (s', evs)) :
    s'.transactions = s.transactions ∧ s'.filled = s.filled ∧
    s'.cancelled = s.cancelled := by
  unfold cancelOrdersUpTo at h
  simp only [] at h
  split at h
  · simp only [Except.ok.injEq, Prod.mk.injEq] at h
    rw [← h.1]
    exact ⟨rfl, rfl, rfl⟩
  · exact Except.noConfusion h

theorem ledgerInv_applyOp {sigValid : Nat → Nat → List Nat → Bool}
    {settle : Order → Nat → Nat → Option (Nat × Nat × Nat)}
    {s : ExchangeState} {o : Order} (hinv : ledgerInv s o) (op : Op) :
    ledgerInv (applyOp sigValid settle s op) o := by
  obtain ⟨hf, hc, hsum⟩ := hinv
  cases op with
  | fill msgSender o' amt sig time =>
    simp only [applyOp, fillOrder]
    split
    · rename_i s' evs r hok
      rcases (fillOrderInternal_ok hok).2 with ⟨hs, -⟩ | ⟨unav, rem, nf, hunav, hrem, hr, -, hnf, hs⟩
      · rw [hs]; exact ⟨hf, hc, hsum⟩
      · subst hs
        by_cases hkey : getOrderHash o = getOrderHash o'
        · have ho : o' = o := getOrderHash_injective hkey.symm
          subst ho
          unfold getUnavailableTakerTokenAmount at hunav
          have hunav' := safeAdd_some_of_lt hf hc hunav
          rw [safeSub_eq_some] at hrem
          obtain ⟨hle, hremv⟩ := hrem
          have hnf' := safeAdd_some hnf
          have h1 : nf ≤ s.filled (getOrderHash o') + r := hnf'.1
          have h2 : r ≤ rem := by rw [hr]; exact min_le_right _ _
          refine ⟨?_, ?_, ?_⟩
          · simp only [ledgerInv]
            simp
            exact hnf'.2
          · simpa using hc
          · simp
            omega
        · refine ⟨?_, ?_, ?_⟩ <;> simp only [if_neg hkey] <;> assumption
    · exact ⟨hf, hc, hsum⟩
  | cancel msgSender o' amt time =>
    simp only [applyOp, cancelOrder]
    split
    · rename_i s' evs r hok
      rcases (cancelOrderInternal_ok hok).2 with ⟨hs, -⟩ | ⟨unav, rem, nc, hunav, hrem, hr, -, hnc, hs⟩
      · rw [hs]; exact ⟨hf, hc, hsum⟩
      · subst hs
        by_cases hkey : getOrderHash o = getOrderHash o'
        · have ho : o' = o := getOrderHash_injective hkey.symm
          subst ho
          unfold getUnavailableTakerTokenAmount at hunav
          have hunav' := safeAdd_some_of_lt hf hc hunav
          rw [safeSub_eq_some] at hrem
          obtain ⟨hle, hremv⟩ := hrem
          have hnc' := safeAdd_some hnc
          have h1 : nc ≤ s.cancelled (getOrderHash o') + r := hnc'.1
          have h2 : r ≤ rem := by rw [hr]; exact min_le_right _ _
          refine ⟨?_, ?_, ?_⟩
          · simpa using hf
          · simp
            exact hnc'.2
          · simp
            omega
        · refine ⟨?_, ?_, ?_⟩ <;> simp only [if_neg hkey] <;> assumption
    · exact ⟨hf, hc, hsum⟩
  | cancelUpTo msgSender salt =>
    simp only [applyOp]
    split
    · rename_i s' evs hok
      obtain ⟨-, hfid, hcid⟩ := cancelOrdersUpTo_ok hok
      exact ⟨by rw [hfid]; exact hf, by rw [hcid]; exact hc, by rw [hfid, hcid]; exact hsum⟩
    · exact ⟨hf, hc, hsum⟩

theorem ledgerInv_run {sigValid : Nat → Nat → List Nat → Bool}
    {settle : Order → Nat → Nat → Option (Nat × Nat × Nat)}
    {s : ExchangeState} {o : Order} (hinv : ledgerInv s o) (ops : List Op) :
    ledgerInv (run sigValid settle s ops) o := by
  induction ops generalizing s with
  | nil => exact hinv
  | cons op ops ih => exact ih (ledgerInv_applyOp hinv op)

/-- C1: for every order and every sequence of fillOrder / cancelOrder /
cancelOrdersUpTo invocations starting from the empty ledger, the sum
`filled[orderHash] + cancelled[orderHash]` never exceeds the order's
`takerTokenAmount`: each fill or cancel adds at most
`min(requestedAmount, takerTokenAmount - (filled + cancelled))` and reverts
on checked-arithmetic failure. -/
theorem filled_plus_cancelled_le_takerTokenAmount
    (sigValid : Nat → Nat → List Nat → Bool)
    (settle : Order → Nat → Nat → Option (Nat × Nat × Nat))
    (ops : List Op) (o : Order) :
    (run sigValid settle initState ops).filled (getOrderHash o) +
      (run sigValid settle initState ops).cancelled (getOrderHash o) ≤
      o.takerTokenAmount :=
  (ledgerInv_run ⟨U256_pos, U256_pos, Nat.zero_le _⟩ ops).2.2

theorem entry_pos_applyOp {sigValid : Nat → Nat → List Nat → Bool}
    {settle : Order → Nat → Nat → Option (Nat × Nat × Nat)}
    {s : ExchangeState} {h : Nat} {op : Op}
    (hpos : 0 < (applyOp sigValid settle s op).filled h +
      (applyOp sigValid settle s op).cancelled h) :
    0 < s.filled h + s.cancelled h ∨ opJustifies sigValid op h := by
  cases op with
  | fill msgSender o amt sig time =>
    simp only [applyOp, fillOrder] at hpos
    split at hpos
    · rename_i s' evs r hok
      obtain ⟨hsig, hdisj⟩ := fillOrderInternal_ok hok
      rcases hdisj with ⟨hs, -⟩ | ⟨unav, rem, nf, -, -, -, -, -, hs⟩
      · subst hs; exact Or.inl hpos
      · rcases eq_or_ne h (getOrderHash o) with hkey | hkey
        · by_cases hzero : s.filled (getOrderHash o) = 0 ∧ s.cancelled (getOrderHash o) = 0
          · refine Or.inr ⟨hkey.symm, ?_⟩
            rw [hkey]
            exact hsig hzero
          · refine Or.inl ?_
            rw [hkey]
            omega
        · refine Or.inl ?_
          rw [hs] at hpos
          have hfe : ({ s with
              filled := fun h' => if h' = getOrderHash o then nf else s.filled h' } :
              ExchangeState).filled h = s.filled h := if_neg hkey
          rw [hfe] at hpos
          exact hpos
    · exact Or.inl hpos
  | cancel msgSender o amt time =>
    simp only [applyOp, cancelOrder] at hpos
    split at hpos
    · rename_i s' evs r hok
      obtain ⟨hmaker, hdisj⟩ := cancelOrderInternal_ok hok
      rcases hdisj with ⟨hs, -⟩ | ⟨unav, rem, nc, -, -, -, -, -, hs⟩
      · subst hs; exact Or.inl hpos
      · rcases eq_or_ne h (getOrderHash o) with hkey | hkey
        · exact Or.inr ⟨hkey.symm, hmaker⟩
        · refine Or.inl ?_
          rw [hs] at hpos
          have hce : ({ s with
              cancelled := fun h' => if h' = getOrderHash o then nc else s.cancelled h' } :
              ExchangeState).cancelled h = s.cancelled h := if_neg hkey
          rw [hce] at hpos
          exact hpos
    · exact Or.inl hpos
  | cancelUpTo msgSender salt =>
    simp only [applyOp] at hpos
    split at hpos
    · rename_i s' evs hok
      obtain ⟨-, hfid, hcid⟩ := cancelOrdersUpTo_ok hok
      rw [hfid, hcid] at hpos
      exact Or.inl hpos
    · exact Or.inl hpos

theorem entry_pos_run {sigValid : Nat → Nat → List Nat → Bool}
    {settle : Order → Nat → Nat → Option (Nat × Nat × Nat)}
    {ops : List Op} {s : ExchangeState} {h : Nat}
    (hpos : 0 < (run sigValid settle s ops).filled h +
      (run sigValid settle s ops).cancelled h) :
    0 < s.filled h + s.cancelled h ∨ ∃ op ∈ ops, opJustifies sigValid op h := by
  induction ops generalizing s with
  | nil => exact Or.inl hpos
  | cons op ops ih =>
    rcases ih hpos with happ | ⟨op', hmem, hjust⟩
    · rcases entry_pos_applyOp happ with hprev | hjust
      · exact Or.inl hprev
      · exact Or.inr ⟨op, List.mem_cons_self op ops, hjust⟩
    · exact Or.inr ⟨op', List.mem_cons_of_mem op hmem, hjust⟩

/-- C2, amended: a non-zero ledger entry proves a prior fill of an order with
that hash whose maker signature passed verification, or a prior cancel of an
order with that hash authenticated by its maker being the caller — not
necessarily a successful signature verification. -/
theorem ledger_entry_provenance (sigValid : Nat → Nat → List Nat → Bool)
    (settle : Order → Nat → Nat → Option (Nat × Nat × Nat))
    (ops : List Op) (h : Nat)
    (hpos : 0 < (run sigValid settle initState ops).filled h +
      (run sigValid settle initState ops).cancelled h) :
    ∃ op ∈ ops, opJustifies sigValid op h := by
  rcases entry_pos_run hpos with hinit | hex
  · exact absurd hinit (by simp [initState])
  · exact hex

/-- Witness for the amended C2 theorem: a single successful fill creates an
entry, and the justification is recoverable from the trace. -/
theorem ledger_entry_provenance_witness :
    0 < (run sigAlwaysTrue settleZero initState
        [Op.fill 7 sampleOrder 10 [] 0]).filled (getOrderHash sampleOrder) +
      (run sigAlwaysTrue settleZero initState
        [Op.fill 7 sampleOrder 10 [] 0]).cancelled (getOrderHash sampleOrder) ∧
    ∃ op ∈ [Op.fill 7 sampleOrder 10 [] 0],
      opJustifies sigAlwaysTrue op (getOrderHash sampleOrder) :=
  ⟨by decide, ledger_entry_provenance sigAlwaysTrue settleZero
    [Op.fill 7 sampleOrder 10 [] 0] (getOrderHash sampleOrder) (by decide)⟩

/-- C2 counterexample: with a validator that rejects every signature — so no
successful maker-signature verification can ever have occurred — a maker's
partial `cancelOrder` creates a ledger entry (cancelled = 1), after which a
taker's `fillOrder` skips signature verification entirely and succeeds
(filled = 10).  The existence of a ledger entry therefore does not prove a
prior successful signature verification. -/
theorem ledger_entry_without_signature_verification :
    (run sigAlwaysFalse settleZero initState
        [Op.cancel 1 sampleOrder 1 0, Op.fill 7 sampleOrder 10 [] 0]).filled
      (getOrderHash sampleOrder) = 10 ∧
    (run sigAlwaysFalse settleZero initState
        [Op.cancel 1 sampleOrder 1 0, Op.fill 7 sampleOrder 10 [] 0]).cancelled
      (getOrderHash sampleOrder) = 1 ∧
    sigAlwaysFalse (getOrderHash sampleOrder) sampleOrder.makerAddress [] = false := by
  refine ⟨by decide, by decide, rfl⟩

theorem fillOrderInternal_transactions {sigValid : Nat → Nat → List Nat → Bool}
    {settle : Order → Nat → Nat → Option (Nat × Nat × Nat)}
    {s : ExchangeState} {msgSender takerAddress : Nat} {order : Order}
    {amt : Nat} {signature : List Nat} {time : Nat}
    {s' : ExchangeState} {evs : List Event} {r : Nat}
    (h : fillOrderInternal sigValid settle s msgSender takerAddress order amt
      signature time = Except.ok (s', evs, r)) :
    s'.transactions = s.transactions := by
  rcases (fillOrderInternal_ok h).2 with ⟨hs, -⟩ | ⟨unav, rem, nf, -, -, -, -, -, hs⟩ <;>
    rw [hs]

theorem executeTransaction_marks {txHash : Nat → List Nat → Nat}
    {sigValid : Nat → Nat → List Nat → Bool}
    {settle : Order → Nat → Nat → Option (Nat × Nat × Nat)} {fillSel : Nat}
    {s : ExchangeState} {msgSender salt signer : Nat} {data signature : List Nat}
    {time : Nat} {s' : ExchangeState} {evs : List Event}
    (h : executeTransaction txHash sigValid settle fillSel s msgSender salt signer
      data signature time = Except.ok (s', evs)) :
    s'.transactions (txHash salt data) = true := by
  unfold executeTransaction at h
  simp only [] at h
  split at h
  · exact Except.noConfusion h
  · split at h
    · exact Except.noConfusion h
    · split at h
      · exact Except.noConfusion h
      · rename_i sel hsel
        split at h
        · split at h
          · exact Except.noConfusion h
          · rename_i args hargs
            split at h
            · exact Except.noConfusion h
            · rename_i s2 evs2 r hfill
              simp only [Except.ok.injEq, Prod.mk.injEq] at h
              rw [← h.1, fillOrderInternal_transactions hfill]
              simp
        · simp only [Except.ok.injEq, Prod.mk.injEq] at h
          rw [← h.1]
          simp

/-- C5: once `executeTransaction` has succeeded for a `(salt, data)` pair,
repeating the call with the same arguments fails at the replay `require`
(`Except.error`, so no state change and no settlement), and the post-state
of the repeated call equals its pre-state. -/
theorem executeTransaction_replay_rejected (txHash : Nat → List Nat → Nat)
    (sigValid : Nat → Nat → List Nat → Bool)
    (settle : Order → Nat → Nat → Option (Nat × Nat × Nat)) (fillSel : Nat)
    (s : ExchangeState) (msgSender salt signer : Nat) (data signature : List Nat)
    (time : Nat)
    (h : isOkE (executeTransaction txHash sigValid settle fillSel s msgSender salt
      signer data signature time) = true) :
    executeTransaction txHash sigValid settle fillSel
      (executeTransactionStep txHash sigValid settle fillSel s msgSender salt signer
        data signature time) msgSender salt signer data signature time =
      Except.error () ∧
    executeTransactionStep txHash sigValid settle fillSel
      (executeTransactionStep txHash sigValid settle fillSel s msgSender salt signer
        data signature time) msgSender salt signer data signature time =
      executeTransactionStep txHash sigValid settle fillSel s msgSender salt signer
        data signature time := by
  obtain ⟨res, hres⟩ : ∃ res, executeTransaction txHash sigValid settle fillSel s
      msgSender salt signer data signature time = Except.ok res := by
    revert h
    cases hx : executeTransaction txHash sigValid settle fillSel s msgSender salt
      signer data signature time with
    | ok v => exact fun _ => ⟨v, rfl⟩
    | error e => simp [isOkE]
  obtain ⟨s', evs⟩ := res
  have hmark : s'.transactions (txHash salt data) = true := executeTransaction_marks hres
  have hstep : executeTransactionStep txHash sigValid settle fillSel s msgSender salt
      signer data signature time = s' := by
    unfold executeTransactionStep
    rw [hres]
  rw [hstep]
  have herr : executeTransaction txHash sigValid settle fillSel s' msgSender salt
      signer data signature time = Except.error () := by
    unfold executeTransaction
    simp only [hmark]
    rfl
  refine ⟨herr, ?_⟩
  unfold executeTransactionStep
  rw [herr]

/-- Witness for the C5 theorem at a concrete successful first execution. -/
theorem executeTransaction_replay_rejected_witness :
    isOkE (executeTransaction txHashConst sigAlwaysTrue settleZero 1 initState
      9 3 11 payload32 [] 0) = true ∧
    executeTransaction txHashConst sigAlwaysTrue settleZero 1
      (executeTransactionStep txHashConst sigAlwaysTrue settleZero 1 initState
        9 3 11 payload32 [] 0) 9 3 11 payload32 [] 0 = Except.error () :=
  ⟨by decide, (executeTransaction_replay_rejected txHashConst sigAlwaysTrue settleZero 1
    initState 9 3 11 payload32 [] 0 (by decide)).1⟩

/-- C6, amended: `cancelOrdersUpTo(salt)` computes the new epoch as
`(salt + 1) mod 2^256` (the increment is unchecked Solidity 0.4 arithmetic
and wraps); it stores that value for the caller and emits `CancelUpTo` when
it strictly exceeds the current epoch, fails hard otherwise, and in
particular a second call with the same salt always fails. -/
theorem cancelOrdersUpTo_spec (s : ExchangeState) (msgSender salt : Nat) :
    ((salt + 1) % U256 > s.makerEpoch msgSender →
      cancelOrdersUpTo s msgSender salt = Except.ok
        ({ s with makerEpoch := fun a =>
            if a = msgSender then (salt + 1) % U256 else s.makerEpoch a },
         [Event.cancelUpTo msgSender ((salt + 1) % U256)])) ∧
    (¬(salt + 1) % U256 > s.makerEpoch msgSender →
      cancelOrdersUpTo s msgSender salt = Except.error ()) ∧
    (∀ s' evs, cancelOrdersUpTo s msgSender salt = Except.ok (s', evs) →
      cancelOrdersUpTo s' msgSender salt = Except.error ()) := by
  refine ⟨?_, ?_, ?_⟩
  · intro hgt
    unfold cancelOrdersUpTo
    simp only [] 
    rw [if_pos hgt]
  · intro hle
    unfold cancelOrdersUpTo
    simp only []
    rw [if_neg hle]
  · intro s' evs hok
    unfold cancelOrdersUpTo at hok ⊢
    simp only [] at hok ⊢
    split at hok
    · simp only [Except.ok.injEq, Prod.mk.injEq] at hok
      rw [← hok.1]
      have hcond : ¬((salt + 1) % U256 > ({ s with makerEpoch := fun a =>
          if a = msgSender then (salt + 1) % U256 else s.makerEpoch a } :
          ExchangeState).makerEpoch msgSender) := by
        simp
      rw [if_neg hcond]
    · exact Except.noConfusion hok

/-- Witness for the C6 theorem: from the empty state, `cancelOrdersUpTo 7`
by caller 5 succeeds and sets the epoch to 8; repeating it with the same
salt fails. -/
theorem cancelOrdersUpTo_spec_witness :
    (7 + 1) % U256 > initState.makerEpoch 5 ∧
    cancelOrdersUpTo initState 5 7 = Except.ok
      ({ initState with makerEpoch := fun a =>
          if a = 5 then (7 + 1) % U256 else initState.makerEpoch a },
       [Event.cancelUpTo 5 ((7 + 1) % U256)]) ∧
    cancelOrdersUpTo
      ({ initState with makerEpoch := fun a =>
          if a = 5 then (7 + 1) % U256 else initState.makerEpoch a }) 5 7 =
      Except.error () :=
  ⟨by decide,
   (cancelOrdersUpTo_spec initState 5 7).1 (by decide),
   (cancelOrdersUpTo_spec initState 5 7).2.2 _ _
     ((cancelOrdersUpTo_spec initState 5 7).1 (by decide))⟩

/-- C6 counterexample: at `salt = 2^256 - 1` the unchecked increment wraps
to 0, so although the mathematical `salt + 1 = 2^256` strictly exceeds the
caller's current epoch (0), the call fails instead of setting the epoch. -/
theorem cancelOrdersUpTo_wrap_fails :
    cancelOrdersUpTo initState 5 (2 ^ 256 - 1) = Except.error () ∧
    2 ^ 256 - 1 + 1 > initState.makerEpoch 5 :=
  ⟨rfl, by decide⟩

theorem safeMul_of_lt {a b : Nat} (h : a * b < U256) : safeMul a b = some (a * b) := by
  simp only [safeMul]
  rcases Nat.eq_zero_or_pos a with ha | ha
  · subst ha
    simp
  · rw [Nat.mod_eq_of_lt h, if_neg (by omega),
      if_pos (Nat.mul_div_cancel_left b (by omega))]

theorem mulmod_eq_zero_of_mul_eq_zero {a b m : Nat} (h : a * b = 0) :
    mulmod a b m = 0 := by
  unfold mulmod
  rw [h]
  simp

theorem safeMul_some_ne_zero {a b c : Nat} (hab : a * b ≠ 0)
    (h : safeMul a b = some c) : c ≠ 0 := by
  simp only [safeMul] at h
  split at h
  · rename_i ha
    exact absurd (by rw [ha, Nat.zero_mul]) hab
  · rename_i ha
    split at h
    · rename_i hdiv
      cases h
      intro hc
      rw [hc, Nat.zero_div] at hdiv
      exact hab (by rw [← hdiv, Nat.mul_zero])
    · exact Option.noConfusion h

/-- C7, amended: `isRoundingError` returns `false` when
`(target * numerator) mod denominator` is zero, and otherwise — provided the
intermediate products `remainder * 1000000` and `numerator * target` fit in
a `uint256` — returns exactly the comparison
`remainder * 1000000 / (numerator * target) > 1000`; when either product
overflows, the call aborts instead of returning a boolean. -/
theorem isRoundingError_spec (numerator denominator target : Nat) :
    (mulmod target numerator denominator = 0 →
      isRoundingError numerator denominator target = some false) ∧
    (mulmod target numerator denominator ≠ 0 →
      mulmod target numerator denominator * 1000000 < U256 →
      numerator * target < U256 →
      isRoundingError numerator denominator target =
        some (decide
          (mulmod target numerator denominator * 1000000 / (numerator * target) > 1000))) := by
  constructor
  · intro hz
    unfold isRoundingError
    simp only []
    rw [if_pos hz]
  · intro hnz hr ht
    unfold isRoundingError
    simp only []
    rw [if_neg hnz, safeMul_of_lt hr, safeMul_of_lt ht]
    have hnt : numerator * target ≠ 0 := by
      intro h0
      exact hnz (mulmod_eq_zero_of_mul_eq_zero (by rw [Nat.mul_comm] at h0; exact h0))
    simp [safeDiv, hnt]

/-- Witness for the C7 theorem: `numerator = 1, denominator = 3, target = 1`
gives remainder 1 and error ratio 1000000 > 1000, so the guard flags it. -/
theorem isRoundingError_spec_witness :
    mulmod 1 1 3 ≠ 0 ∧ isRoundingError 1 3 1 = some true := by
  refine ⟨by decide, ?_⟩
  have h := (isRoundingError_spec 1 3 1).2 (by decide) (by decide) (by decide)
  simpa using h

/-- C7 counterexample: at `numerator = target = 2^128, denominator = 3` the
remainder is `2^256 mod 3 = 1`, nonzero, and the claimed error ratio
`1 * 1000000 / 2^256 = 0` does not exceed 1000, so by the claim the function
must return `false`; but `safeMul(numerator, target)` overflows and the call
aborts, returning no boolean at all. -/
theorem isRoundingError_overflow_aborts :
    isRoundingError (2 ^ 128) 3 (2 ^ 128) = none ∧
    mulmod (2 ^ 128) (2 ^ 128) 3 ≠ 0 ∧
    mulmod (2 ^ 128) (2 ^ 128) 3 * 1000000 / (2 ^ 128 * 2 ^ 128) ≤ 1000 := by
  refine ⟨by decide, by decide, by decide⟩

/-- C10: the error-ratio division of `isRoundingError` can never divide by
zero.  A zero numerator, target or denominator forces a zero remainder and
an early `false` return; whenever the remainder is nonzero the divisor
`numerator * target` is nonzero; and the only way the function can abort is
a checked-multiplication overflow, never the division. -/
theorem isRoundingError_div_safe (numerator denominator target : Nat) :
    ((numerator = 0 ∨ target = 0 ∨ denominator = 0) →
      isRoundingError numerator denominator target = some false) ∧
    (mulmod target numerator denominator ≠ 0 → numerator * target ≠ 0) ∧
    (isRoundingError numerator denominator target = none →
      safeMul (mulmod target numerator denominator) 1000000 = none ∨
      safeMul numerator target = none) := by
  have hprod : mulmod target numerator denominator ≠ 0 → numerator * target ≠ 0 := by
    intro hnz h0
    exact hnz (mulmod_eq_zero_of_mul_eq_zero (by rw [Nat.mul_comm] at h0; exact h0))
  refine ⟨?_, hprod, ?_⟩
  · intro hzero
    have hz : mulmod target numerator denominator = 0 := by
      rcases hzero with h | h | h
      · exact mulmod_eq_zero_of_mul_eq_zero (by rw [h, Nat.mul_zero])
      · exact mulmod_eq_zero_of_mul_eq_zero (by rw [h, Nat.zero_mul])
      · unfold mulmod
        rw [if_pos h]
    unfold isRoundingError
    simp only []
    rw [if_pos hz]
  · intro hnone
    unfold isRoundingError at hnone
    simp only [] at hnone
    split at hnone
    · exact Option.noConfusion hnone
    · rename_i hnz
      split at hnone
      · exact Or.inl (by assumption)
      · rename_i a ha
        split at hnone
        · exact Or.inr (by assumption)
        · rename_i b hb
          split at hnone
          · rename_i hdiv
            have hb0 : b ≠ 0 := safeMul_some_ne_zero (hprod hnz) hb
            unfold safeDiv at hdiv
            rw [if_neg hb0] at hdiv
            exact Option.noConfusion hdiv
          · exact Option.noConfusion hnone

/-- Witness for the C10 theorem: a zero numerator returns `false`, and a
nonzero remainder at `numerator = 3, denominator = 7, target = 5` certifies
a nonzero divisor. -/
theorem isRoundingError_div_safe_witness :
    isRoundingError 0 7 5 = some false ∧ (3 : Nat) * 5 ≠ 0 :=
  ⟨(isRoundingError_div_safe 0 7 5).1 (Or.inl rfl),
   (isRoundingError_div_safe 3 7 5).2.1 (by decide)⟩

/-- C8: if an order's expiration time has passed (current time at or beyond
`expirationTimeSeconds`) and the earlier hard checks pass (first-reference
validation, sender / taker authorization, nonzero fill amount), `fillOrder`
returns 0, emits only the `OrderExpired` signal, and leaves the ledger state
exactly unchanged. -/
theorem fillOrder_expired_noop (sigValid : Nat → Nat → List Nat → Bool)
    (settle : Order → Nat → Nat → Option (Nat × Nat × Nat))
    (s : ExchangeState) (msgSender : Nat) (o : Order) (amt : Nat)
    (sig : List Nat) (t : Nat)
    (hfirst : s.filled (getOrderHash o) = 0 ∧ s.cancelled (getOrderHash o) = 0 →
      o.makerTokenAmount > 0 ∧ o.takerTokenAmount > 0 ∧
      sigValid (getOrderHash o) o.makerAddress sig = true)
    (hsender : o.senderAddress ≠ 0 → o.senderAddress = msgSender)
    (htaker : o.takerAddress ≠ 0 → o.takerAddress = msgSender)
    (hamt : amt > 0)
    (hexp : o.expirationTimeSeconds ≤ t) :
    fillOrder sigValid settle s msgSender o amt sig t =
      Except.ok (s, [Event.exchangeError Errors.orderExpired (getOrderHash o)], 0) := by
  unfold fillOrder fillOrderInternal
  simp only []
  rw [if_neg (fun hand => hand.2 (hfirst hand.1)),
    if_neg (fun hand => hand.2 (hsender hand.1)),
    if_neg (fun hand => hand.2 (htaker hand.1)),
    if_neg (not_not_intro hamt)]
  unfold fillOrderAvailability
  rw [if_pos hexp]

/-- Witness for the C8 theorem: filling the sample order at its expiration
time is a soft no-op. -/
theorem fillOrder_expired_noop_witness :
    sampleOrder.expirationTimeSeconds ≤ 1000 ∧
    fillOrder sigAlwaysTrue settleZero initState 7 sampleOrder 5 [] 1000 =
      Except.ok (initState,
        [Event.exchangeError Errors.orderExpired (getOrderHash sampleOrder)], 0) :=
  ⟨by decide,
   fillOrder_expired_noop sigAlwaysTrue settleZero initState 7 sampleOrder 5 [] 1000
     (by decide) (by decide) (by decide) (by decide) (by decide)⟩

/-- C9: on an exhausted order (`filled + cancelled = takerTokenAmount`, a
genuine `uint256` amount, positive), a further `fillOrder` with positive
requested amount that passes authorization and expiry returns 0, emits the
fully-filled-or-cancelled signal, and leaves the ledger exactly as it was. -/
theorem fillOrder_fullyFilled_noop (sigValid : Nat → Nat → List Nat → Bool)
    (settle : Order → Nat → Nat → Option (Nat × Nat × Nat))
    (s : ExchangeState) (msgSender : Nat) (o : Order) (amt : Nat)
    (sig : List Nat) (t : Nat)
    (hsum : s.filled (getOrderHash o) + s.cancelled (getOrderHash o) =
      o.takerTokenAmount)
    (hpos : 0 < o.takerTokenAmount) (hband : o.takerTokenAmount < U256)
    (hsender : o.senderAddress ≠ 0 → o.senderAddress = msgSender)
    (htaker : o.takerAddress ≠ 0 → o.takerAddress = msgSender)
    (hamt : amt > 0)
    (hexp : t < o.expirationTimeSeconds) :
    fillOrder sigValid settle s msgSender o amt sig t =
      Except.ok (s,
        [Event.exchangeError Errors.orderFullyFilledOrCancelled (getOrderHash o)],
        0) := by
  unfold fillOrder fillOrderInternal
  simp only []
  rw [if_neg (fun hand => by omega),
    if_neg (fun hand => hand.2 (hsender hand.1)),
    if_neg (fun hand => hand.2 (htaker hand.1)),
    if_neg (not_not_intro hamt)]
  unfold fillOrderAvailability
  rw [if_neg (by omega)]
  have hu : getUnavailableTakerTokenAmount s (getOrderHash o) =
      some o.takerTokenAmount := by
    unfold getUnavailableTakerTokenAmount
    rw [← hsum]
    exact safeAdd_of_sum_lt (by omega)
  have hsub : safeSub o.takerTokenAmount o.takerTokenAmount = some 0 := by
    unfold safeSub
    rw [if_pos (Nat.le_refl _)]
    rw [Nat.sub_self]
  simp [hu, hsub, min256]

/-- Witness for the C9 theorem: filling the exhausted sample order again is
a soft no-op that leaves the ledger entry untouched. -/
theorem fillOrder_fullyFilled_noop_witness :
    filledUpState.filled (getOrderHash sampleOrder) +
      filledUpState.cancelled (getOrderHash sampleOrder) =
      sampleOrder.takerTokenAmount ∧
    fillOrder sigAlwaysTrue settleZero filledUpState 7 sampleOrder 10 [] 0 =
      Except.ok (filledUpState,
        [Event.exchangeError Errors.orderFullyFilledOrCancelled
          (getOrderHash sampleOrder)], 0) :=
  ⟨by decide,
   fillOrder_fullyFilled_noop sigAlwaysTrue settleZero filledUpState 7 sampleOrder
     10 [] 0 (by decide) (by decide) (by decide) (by decide) (by decide)
     (by decide) (by decide)⟩

/-- C3, amended: `getFillOrderArgs` performs no length validation at all —
for every payload, however short, it returns a decoded result (absent bytes
read as zero).  The only length check in the decode path is `get4`'s
`require(b.length >= index + 32)`, used for the function selector: payloads
shorter than 32 bytes make `get4` fail, payloads of at least 32 bytes pass
it. -/
theorem getFillOrderArgs_no_length_check (data : List Nat) :
    (getFillOrderArgs data).isSome = true ∧
    (data.length < 32 → get4 data 0 = none) ∧
    (32 ≤ data.length → (get4 data 0).isSome = true) := by
  refine ⟨rfl, ?_, ?_⟩
  · intro h
    unfold get4
    rw [if_neg (by omega)]
  · intro h
    unfold get4
    rw [if_pos (by omega)]
    rfl

/-- Witness for the C3 theorem at concrete payloads. -/
theorem getFillOrderArgs_no_length_check_witness :
    (getFillOrderArgs shortPayload).isSome = true ∧
    get4 (List.replicate 10 0) 0 = none :=
  ⟨(getFillOrderArgs_no_length_check shortPayload).1,
   (getFillOrderArgs_no_length_check (List.replicate 10 0)).2.1 (by decide)⟩

/-- C3 counterexample: a 36-byte payload is shorter than the 484-byte
minimum required by the declared structure (4-byte selector, twelve 32-byte
order fields, 32-byte fill amount, 32-byte signature offset and 32-byte
signature length), yet `getFillOrderArgs` does not fail — it returns a
fully decoded all-zero result. -/
theorem getFillOrderArgs_short_payload_decodes :
    getFillOrderArgs shortPayload =
      some
        ({ senderAddress := 0, makerAddress := 0, takerAddress := 0,
           makerTokenAddress := 0, takerTokenAddress := 0, feeRecipientAddress := 0,
           makerTokenAmount := 0, takerTokenAmount := 0, makerFeeAmount := 0,
           takerFeeAmount := 0, expirationTimeSeconds := 0, salt := 0 },
         0, []) ∧
    shortPayload.length < 484 := by
  refine ⟨by decide, by decide⟩

end ZeroExModel

namespace ZeroEx

/-- C4, amended: once the three argument assertions pass (hex data string,
schema-conformant signature, well-formed address), `isValidSignature`
returns a boolean and never throws: `false` on recovery failure, and
otherwise exactly the comparison of the recovered address with
`expectedSigner`.  Inputs that fail an assertion throw instead of returning
`false`. -/
theorem isValidSignature_ok_of_valid_args (hpm : String → String)
    (ec : String → Nat → String → String → Option String)
    (dataHex : String) (sig : ECSignature) (signer : String)
    (h1 : isHexString dataHex = true)
    (h2 : conformsToECSignatureSchema sig = true)
    (h3 : isETHAddressHex signer = true) :
    isValidSignature hpm ec dataHex sig signer =
      Except.ok (match ec (hpm dataHex) sig.v sig.r sig.s with
        | none => false
        | some retrievedAddress => retrievedAddress == signer) := by
  unfold isValidSignature
  rw [if_neg (not_not_intro h1), if_neg (not_not_intro h2), if_neg (not_not_intro h3)]
  cases hec : ec (hpm dataHex) sig.v sig.r sig.s <;> simp [hec]

/-- Witness for the C4 theorem: well-formed arguments with a recovery oracle
returning the expected signer yield `ok true` (and with `ecNone`, `ok
false`). -/
theorem isValidSignature_ok_of_valid_args_witness :
    isHexString "0x00" = true ∧
    isValidSignature hpmId ecConst "0x00" sampleSig sampleAddr = Except.ok true ∧
    isValidSignature hpmId ecNone "0x00" sampleSig sampleAddr = Except.ok false := by
  refine ⟨by decide, ?_, ?_⟩
  · have h := isValidSignature_ok_of_valid_args hpmId ecConst "0x00" sampleSig
      sampleAddr (by decide) (by decide) (by decide)
    rw [h]
    rfl
  · have h := isValidSignature_ok_of_valid_args hpmId ecNone "0x00" sampleSig
      sampleAddr (by decide) (by decide) (by decide)
    rw [h]
    rfl

/-- C4 counterexample: a malformed `dataHex` (not a hex string) together
with malformed signature material (`r`, `s` not 32-byte hex values) makes
`isValidSignature` throw an assertion error instead of returning `false`:
the argument assertions run outside the `try`/`catch`. -/
theorem isValidSignature_throws_on_malformed :
    isValidSignature hpmId ecNone "zz" { v := 27, r := "0x", s := "0x" } "0x00" =
      Except.error () := rfl

end ZeroEx
